import Mathlib

/-
Verification development for the aura-smartwallet-backend core:
the risk-scoring engine (services/riskAnalyzer.js), the alert registry and
its background evaluator (services/alertService.js), and the in-memory cache
(services/cacheService.js).

JavaScript numbers are modelled by an explicit type with NaN and signed
infinity over exact rationals: the codebase only produces non-finite values
through division, so the IEEE-754 precision of finite arithmetic is idealised
to exact rational arithmetic, while the NaN/Infinity structure of division by
zero, and the fact that every comparison involving NaN is false, are modelled
exactly.
-/

namespace Aura

/-- Model of a JavaScript number: NaN, signed infinity, or a finite value
(idealised as an exact rational). -/
inductive JsNum where
  | nan : JsNum
  | inf : Bool → JsNum
  | fin : ℚ → JsNum
deriving DecidableEq

namespace JsNum

/-- JavaScript addition on the number model. -/
def jsAdd : JsNum → JsNum → JsNum
  | nan, _ => nan
  | _, nan => nan
  | inf b, inf b' => if b = b' then inf b else nan
  | inf b, fin _ => inf b
  | fin _, inf b => inf b
  | fin q, fin q' => fin (q + q')

/-- JavaScript multiplication on the number model. -/
def jsMul : JsNum → JsNum → JsNum
  | nan, _ => nan
  | _, nan => nan
  | inf b, inf b' => inf (b = b')
  | inf b, fin q => if q = 0 then nan else inf (b = decide (0 < q))
  | fin q, inf b => if q = 0 then nan else inf (b = decide (0 < q))
  | fin q, fin q' => fin (q * q')

/-- JavaScript division on the number model: x/0 is NaN when x = 0 and a
signed infinity otherwise (the model only carries a positive zero). -/
def jsDiv : JsNum → JsNum → JsNum
  | nan, _ => nan
  | _, nan => nan
  | inf _, inf _ => nan
  | inf b, fin q => if q < 0 then inf (¬b) else inf b
  | fin _, inf _ => fin 0
  | fin q, fin q' =>
      if q' = 0 then (if q = 0 then nan else inf (0 < q)) else fin (q / q')

/-- JavaScript comparison x > c against a finite constant: false on NaN. -/
def jsGtC : JsNum → ℚ → Bool
  | nan, _ => false
  | inf b, _ => b
  | fin q, c => decide (c < q)

/-- JavaScript comparison x >= c against a finite constant: false on NaN. -/
def jsGeC : JsNum → ℚ → Bool
  | nan, _ => false
  | inf b, _ => b
  | fin q, c => decide (c ≤ q)

/-- Half-up rounding on rationals, the behaviour of Math.round on finite
values. -/
def jroundQ (q : ℚ) : ℚ := (⌊q + 1/2⌋ : ℤ)

/-- Math.round on the number model: NaN and infinities pass through. -/
def jsRound : JsNum → JsNum
  | nan => nan
  | inf b => inf b
  | fin q => fin (jroundQ q)

@[simp] theorem jsAdd_fin_fin (a b : ℚ) : jsAdd (fin a) (fin b) = fin (a + b) := rfl

@[simp] theorem jsMul_fin_fin (a b : ℚ) : jsMul (fin a) (fin b) = fin (a * b) := rfl

theorem jsDiv_fin_fin {b : ℚ} (hb : b ≠ 0) (a : ℚ) :
    jsDiv (fin a) (fin b) = fin (a / b) := by
  simp [jsDiv, hb]

@[simp] theorem jsRound_fin (q : ℚ) : jsRound (fin q) = fin (jroundQ q) := rfl

@[simp] theorem jsGtC_fin (q c : ℚ) : jsGtC (fin q) c = decide (c < q) := rfl

@[simp] theorem jsGeC_fin (q c : ℚ) : jsGeC (fin q) c = decide (c ≤ q) := rfl

end JsNum

/-! ## JavaScript string helpers

toLowerCase / toUpperCase for the ASCII range (the only characters the
codebase compares), and String.prototype.startsWith. -/

/-- ASCII lower-casing of one character, as toLowerCase acts on the ASCII
range. -/
def jsCharToLower (c : Char) : Char :=
  if 65 ≤ c.toNat ∧ c.toNat ≤ 90 then Char.ofNat (c.toNat + 32) else c

/-- ASCII upper-casing of one character, as toUpperCase acts on the ASCII
range. -/
def jsCharToUpper (c : Char) : Char :=
  if 97 ≤ c.toNat ∧ c.toNat ≤ 122 then Char.ofNat (c.toNat - 32) else c

/-- Model of String.prototype.toLowerCase restricted to ASCII. -/
def jsToLower (s : String) : String := ⟨s.data.map jsCharToLower⟩

/-- Model of String.prototype.toUpperCase restricted to ASCII. -/
def jsToUpper (s : String) : String := ⟨s.data.map jsCharToUpper⟩

/-- Model of String.prototype.startsWith on the underlying character lists
(first argument: the string, second: the candidate leading segment). -/
def strStartsWith : List Char → List Char → Bool
  | _, [] => true
  | [], _ :: _ => false
  | a :: as, b :: bs => a = b && strStartsWith as bs

/-- A character is a hexadecimal digit: a decimal digit or a letter between
a and f in either case, phrased over code points. -/
def isHexDigitChar (c : Char) : Bool :=
  (48 ≤ c.toNat && c.toNat ≤ 57) || (97 ≤ c.toNat && c.toNat ≤ 102)
    || (65 ≤ c.toNat && c.toNat ≤ 70)

/-- A genuine hexadecimal address: the character 0 followed by x and then
hexadecimal digits. -/
def isHexAddress (s : String) : Bool :=
  match s.data with
  | c0 :: c1 :: rest => c0 = '0' && c1 = 'x' && rest.all isHexDigitChar
  | _ => false

/-! ## RiskAnalyzer (services/riskAnalyzer.js)

The token classification tables, the four portfolio sub-scores, the combined
portfolio score, the transaction point system, and the known-contract check.
Human-readable status strings, factor breakdown percentages and the
recommendation list are elided: no claim mentions them and they do not feed
back into any score. -/

/-- A token holding as read by the risk analyzer: symbol and USD value
(the balance field is never read by the scoring code). -/
structure Token where
  symbol : String
  valueUSD : ℚ
deriving DecidableEq

/-- The stablecoin symbol table (also returned by getStablecoins). -/
def stablecoins : List String := ["USDC", "USDT", "DAI", "BUSD", "TUSD", "FRAX"]

/-- The bluechip symbol table (also returned by getBluechips). -/
def bluechips : List String :=
  ["BTC", "ETH", "BNB", "SOL", "MATIC", "AVAX", "LINK", "AURA"]

/-- The memecoin symbol table. -/
def memecoins : List String := ["DOGE", "SHIB", "PEPE", "FLOKI", "BONK"]

/-- isStablecoin: membership of the upper-cased symbol in the stablecoin
table. -/
def isStablecoin (symbol : String) : Bool := stablecoins.contains (jsToUpper symbol)

/-- isBluechip: membership of the upper-cased symbol in the bluechip table. -/
def isBluechip (symbol : String) : Bool := bluechips.contains (jsToUpper symbol)

/-- isMemecoin: membership of the upper-cased symbol in the memecoin table. -/
def isMemecoin (symbol : String) : Bool := memecoins.contains (jsToUpper symbol)

/-- isLowLiquidityToken: outside the union of the stablecoin and bluechip
tables. -/
def isLowLiquidityToken (symbol : String) : Bool :=
  !((stablecoins ++ bluechips).contains (jsToUpper symbol))

/-- The volatility coefficient chosen by the classification chain in
calculateVolatilityRisk (stablecoin 0.05, bluechip 0.15, memecoin 0.50,
otherwise altcoin 0.30, tested in that order). -/
def volWeight (t : Token) : ℚ :=
  if isStablecoin t.symbol then 5/100
  else if isBluechip t.symbol then 15/100
  else if isMemecoin t.symbol then 50/100
  else 30/100

/-- tokens.reduce((sum, t) => sum + t.valueUSD, 0). -/
def totalValueQ (tokens : List Token) : ℚ :=
  tokens.foldl (fun s t => s + t.valueUSD) 0

/-- calculateDiversificationRisk: the step function of token count
(score field only). -/
def calculateDiversificationRisk (tokens : List Token) : ℚ :=
  let tokenCount := tokens.length
  if tokenCount = 1 then 25
  else if tokenCount = 2 then 20
  else if tokenCount ≤ 5 then 12
  else if tokenCount ≤ 10 then 5
  else 2

open JsNum in
/-- The volatilityScore accumulation loop of calculateVolatilityRisk:
for each token, percentage = (valueUSD / totalValue) * 100 and the
percentage times the volatility coefficient is added. -/
def volatilityScoreJ (tokens : List Token) (totalValue : ℚ) : JsNum :=
  tokens.foldl
    (fun acc t =>
      jsAdd acc (jsMul (jsMul (jsDiv (fin t.valueUSD) (fin totalValue)) (fin 100))
        (fin (volWeight t))))
    (fin 0)

open JsNum in
/-- calculateVolatilityRisk (score field only): the weighted percentage sum
normalised to the 0-30 band by dividing by 100 and multiplying by 30. -/
def calculateVolatilityRisk (tokens : List Token) : JsNum :=
  let totalValue := totalValueQ tokens
  let volatilityScore := volatilityScoreJ tokens totalValue
  jsMul (jsDiv volatilityScore (fin 100)) (fin 30)

/-- Stable insertion (descending by valueUSD) modelling the comparator
(a, b) => b.valueUSD - a.valueUSD: an element moves ahead only of strictly
smaller values. -/
def insertDesc (t : Token) : List Token → List Token
  | [] => [t]
  | u :: us => if u.valueUSD < t.valueUSD then t :: u :: us else u :: insertDesc t us

/-- Stable descending sort by valueUSD, modelling
[...tokens].sort((a, b) => b.valueUSD - a.valueUSD). -/
def sortDesc : List Token → List Token
  | [] => []
  | t :: ts => insertDesc t (sortDesc ts)

open JsNum in
/-- calculateConcentrationRisk (score field only): branch on the top-1 and
top-3 value shares of the descending-sorted holdings. -/
def calculateConcentrationRisk (tokens : List Token) : ℚ :=
  let totalValue := totalValueQ tokens
  let sorted := sortDesc tokens
  let top1Percent : JsNum :=
    match sorted with
    | [] => fin 0
    | t :: _ => jsMul (jsDiv (fin t.valueUSD) (fin totalValue)) (fin 100)
  let top3Percent : JsNum :=
    jsMul (jsDiv (fin (totalValueQ (sorted.take 3))) (fin totalValue)) (fin 100)
  if jsGtC top1Percent 70 then 25
  else if jsGtC top1Percent 50 then 20
  else if jsGtC top1Percent 30 then 15
  else if jsGtC top3Percent 80 then 10
  else 3

/-- The illiquid value accumulated by calculateLiquidityRisk: tokens below
the 100 USD floor or outside the known-liquid set. -/
def illiquidValueQ (tokens : List Token) : ℚ :=
  tokens.foldl
    (fun acc t =>
      if t.valueUSD < 100 ∨ isLowLiquidityToken t.symbol then acc + t.valueUSD else acc)
    0

open JsNum in
/-- calculateLiquidityRisk (score field only): branch on the illiquid value
share. -/
def calculateLiquidityRisk (tokens : List Token) : ℚ :=
  let totalValue := totalValueQ tokens
  let illiquidPercentage : JsNum :=
    jsMul (jsDiv (fin (illiquidValueQ tokens)) (fin totalValue)) (fin 100)
  if jsGtC illiquidPercentage 50 then 20
  else if jsGtC illiquidPercentage 25 then 15
  else if jsGtC illiquidPercentage 10 then 8
  else 2

open JsNum in
/-- getRiskLevel: fixed thresholds at 75 / 50 / 25; every comparison is false
on NaN, so a NaN score falls through to LOW. -/
def getRiskLevel (score : JsNum) : String :=
  if jsGeC score 75 then "CRITICAL"
  else if jsGeC score 50 then "HIGH"
  else if jsGeC score 25 then "MEDIUM"
  else "LOW"

/-- The result of calculatePortfolioRisk: the rounded total, the level, and
the four sub-factor scores (status strings, breakdowns, recommendations and
the timestamp are elided). -/
structure PortfolioRisk where
  score : JsNum
  level : String
  diversification : ℚ
  volatility : JsNum
  concentration : ℚ
  liquidity : ℚ
deriving DecidableEq

open JsNum in
/-- calculatePortfolioRisk: riskScore starts at 0 and accumulates the four
sub-scores in order; the returned score is Math.round of the accumulation
and the level is derived from the unrounded accumulation. The transactions
and walletAge fields of the input are destructured but never used by the
scoring code, so the model takes the token list directly. -/
def calculatePortfolioRisk (tokens : List Token) : PortfolioRisk :=
  let d := calculateDiversificationRisk tokens
  let v := calculateVolatilityRisk tokens
  let c := calculateConcentrationRisk tokens
  let l := calculateLiquidityRisk tokens
  let riskScore := jsAdd (jsAdd (jsAdd (jsAdd (fin 0) (fin d)) v) (fin c)) (fin l)
  { score := jsRound riskScore
    level := getRiskLevel riskScore
    diversification := d
    volatility := v
    concentration := c
    liquidity := l }

/-- The known-safe-contract allowlist of isKnownContract: two copies of the
literal placeholder string. -/
def knownContracts : List String := ["0x...", "0x..."]

/-- isKnownContract: some allowlist entry is a leading segment of the
lower-cased address (both sides lower-cased). -/
def isKnownContract (address : String) : Bool :=
  knownContracts.any (fun known =>
    strStartsWith (jsToLower address).data (jsToLower known).data)

/-- A transaction as read by assessTransactionRisk: value, gasUsed, the
optional token-transfer list, and the optional destination address (hash,
from and timestamp are never read by the scoring code). -/
structure Transaction where
  value : ℚ
  gasUsed : ℚ
  tokenTransfers : Option (List Unit)
  toAddr : Option String
deriving DecidableEq

/-- The result of assessTransactionRisk (warnings list elided). -/
structure TxRisk where
  score : ℚ
  level : String
  shouldAlert : Bool
deriving DecidableEq

/-- assessTransactionRisk: the additive point system over the four checks,
then the level thresholds; an absent or empty destination string is falsy
and skips the contract check, while a present token-transfer array (always
truthy) is tested for length above 5. -/
def assessTransactionRisk (tx : Transaction) : TxRisk :=
  let s1 : ℚ := if 10000 < tx.value then 15 else 0
  let s2 : ℚ := if 500000 < tx.gasUsed then s1 + 20 else s1
  let s3 : ℚ :=
    match tx.tokenTransfers with
    | some transfers => if 5 < transfers.length then s2 + 10 else s2
    | none => s2
  let s4 : ℚ :=
    match tx.toAddr with
    | some addr => if addr ≠ "" ∧ isKnownContract addr = false then s3 + 25 else s3
    | none => s3
  let level := getRiskLevel (JsNum.fin s4)
  { score := s4
    level := level
    shouldAlert := level = "HIGH" ∨ level = "CRITICAL" }

/-! ## Association lists

JavaScript Map objects are modelled as association lists in insertion order:
set updates an existing key in place or appends a new binding, delete removes
the binding and reports whether one existed, and iteration follows the list
order. A map never holds two bindings of one key, which the embedding carries
as an explicit no-duplicate-keys hypothesis where it matters. -/

/-- Map.prototype.get: the value bound to the key, if any. -/
def aget {α : Type} : List (String × α) → String → Option α
  | [], _ => none
  | (k', v) :: rest, k => if k' = k then some v else aget rest k

/-- Map.prototype.set: update an existing binding in place, or append. -/
def aset {α : Type} : List (String × α) → String → α → List (String × α)
  | [], k, v => [(k, v)]
  | (k', v') :: rest, k, v =>
      if k' = k then (k, v) :: rest else (k', v') :: aset rest k v

/-- Map.prototype.delete: the map without the binding, and whether a binding
was removed. -/
def adel {α : Type} : List (String × α) → String → List (String × α) × Bool
  | [], _ => ([], false)
  | (k', v') :: rest, k =>
      if k' = k then (rest, true)
      else
        let r := adel rest k
        ((k', v') :: r.1, r.2)

/-! ## CacheService (services/cacheService.js)

Date.now is passed explicitly as the current time in milliseconds (an exact
rational). The periodic cleanExpired sweep and getStats are included for
completeness. -/

/-- A JavaScript value as stored in the cache, with enough structure to model
truthiness. -/
inductive JVal where
  | jnum : ℚ → JVal
  | jstr : String → JVal
  | jbool : Bool → JVal
  | jnull : JVal
  | jundef : JVal
deriving DecidableEq

/-- JavaScript truthiness of a stored value (0, the empty string, false,
null and undefined are falsy). -/
def truthy : JVal → Bool
  | .jnum q => q ≠ 0
  | .jstr s => s ≠ ""
  | .jbool b => b
  | .jnull => false
  | .jundef => false

/-- The cache state: the value map and the absolute-expiry map. -/
structure CacheState where
  cache : List (String × JVal)
  ttls : List (String × ℚ)
deriving DecidableEq

/-- The cache state of a fresh CacheService. -/
def emptyCache : CacheState := { cache := [], ttls := [] }

/-- CacheService.set: always stores the value; records an absolute expiry of
now plus ttl seconds only when ttl > 0 (a prior expiry for the key is left
untouched otherwise). -/
def cset (now : ℚ) (s : CacheState) (key : String) (value : JVal) (ttl : ℚ) :
    CacheState :=
  { cache := aset s.cache key value
    ttls := if 0 < ttl then aset s.ttls key (now + ttl * 1000) else s.ttls }

/-- CacheService.isExpired: false when no expiry is recorded or the recorded
expiry is the falsy number 0; otherwise whether now is strictly past it. -/
def isExpired (now : ℚ) (s : CacheState) (key : String) : Bool :=
  match aget s.ttls key with
  | none => false
  | some expiresAt => if expiresAt = 0 then false else decide (expiresAt < now)

/-- CacheService.delete: remove the key from both maps. -/
def cdelete (s : CacheState) (key : String) : CacheState :=
  { cache := (adel s.cache key).1, ttls := (adel s.ttls key).1 }

/-- CacheService.clear: remove every entry. -/
def cclear (_ : CacheState) : CacheState := emptyCache

/-- CacheService.get: an expired key is evicted and reads as null; otherwise
the stored value is returned through the expression value-or-null, so a falsy
stored value also reads as null. Returns the read value and the possibly
updated state. -/
def cget (now : ℚ) (s : CacheState) (key : String) : JVal × CacheState :=
  if isExpired now s key then (JVal.jnull, cdelete s key)
  else
    match aget s.cache key with
    | none => (JVal.jnull, s)
    | some v => (if truthy v then v else JVal.jnull, s)

/-- CacheService.has: the same expiry check and eviction as get, then key
presence. -/
def chas (now : ℚ) (s : CacheState) (key : String) : Bool × CacheState :=
  if isExpired now s key then (false, cdelete s key)
  else ((aget s.cache key).isSome, s)

/-- CacheService.cleanExpired: drop every entry whose recorded expiry is
strictly in the past (the sweep runs over the ttl map). -/
def cleanExpired (now : ℚ) (s : CacheState) : CacheState :=
  { cache := s.cache.filter (fun p =>
      match aget s.ttls p.1 with
      | none => true
      | some e => decide (now ≤ e))
    ttls := s.ttls.filter (fun p => decide (now ≤ p.2)) }

/-! ## AlertService (services/alertService.js)

The registry holds two Map objects: alerts (every alert keyed by id) and
activeAlerts (the triggered index). In JavaScript both maps reference the
same alert object and triggerAlert mutates it in place; the value-based model
writes the updated alert into both maps, which is observationally the same
because triggerAlert is the only mutation.

The evaluators (evaluatePriceAlert, evaluateRiskAlert, evaluateBalanceAlert,
evaluateTransactionAlert) all depend on the external data provider, so a
whole evaluator pass is parametrised by an oracle giving each alert its
evaluation outcome: a boolean, or a thrown error.

generateAlertId builds ids from the clock and a random suffix and so never
repeats; the model threads the issued ids through a ghost field used and the
create step consumes a fresh id. Timestamp fields (createdAt, triggeredAt,
lastChecked) are elided: no claim reads them. -/

/-- The caller-supplied alert fields (the spread alertData); each required
field may be absent. The optional token field used by price and balance
alerts is elided because evaluation is abstracted by the oracle. -/
structure AlertSpec where
  address : Option String
  typ : Option String
  condition : Option String
  value : Option ℚ
deriving DecidableEq

/-- A stored alert: the generated id, the caller fields, the status string
and the triggered flag. -/
structure Alert where
  id : String
  spec : AlertSpec
  status : String
  triggered : Bool
deriving DecidableEq

/-- The registry state, with the ghost list of every id the generator has
issued. -/
structure AlertState where
  alerts : List (String × Alert)
  activeAlerts : List (String × Alert)
  used : List String
deriving DecidableEq

/-- The state of a fresh AlertService. -/
def emptyAlerts : AlertState := { alerts := [], activeAlerts := [], used := [] }

/-- createAlert: build the alert from the spread spec with the generated id,
status active and triggered false, store it, and return it. No field
validation is performed. -/
def createAlert (s : AlertState) (id : String) (spec : AlertSpec) :
    AlertState × Alert :=
  let a : Alert := { id := id, spec := spec, status := "active", triggered := false }
  ({ s with alerts := aset s.alerts id a, used := id :: s.used }, a)

/-- deleteAlert: delete from the alerts map only, returning the Map.delete
result; the activeAlerts index is not touched. -/
def deleteAlert (s : AlertState) (id : String) : AlertState × Bool :=
  (({ s with alerts := (adel s.alerts id).1 }), (adel s.alerts id).2)

/-- triggerAlert: set the triggered flag and index the alert in activeAlerts
(the in-place object mutation is modelled by writing the updated alert back
to both maps). -/
def triggerAlert (s : AlertState) (a : Alert) : AlertState :=
  let a' : Alert := { a with triggered := true }
  { s with
      alerts := aset s.alerts a'.id a'
      activeAlerts := aset s.activeAlerts a'.id a' }

/-- One pass of checkAlerts over the remaining iteration list: an alert that
is not active or already triggered is skipped; otherwise the oracle is
consulted, a thrown error is caught and the pass continues, and a true
outcome triggers the alert. -/
def checkAlertsGo (ev : Alert → Except Unit Bool) :
    List (String × Alert) → AlertState → AlertState
  | [], s => s
  | (_, a) :: rest, s =>
      if a.status ≠ "active" ∨ a.triggered then checkAlertsGo ev rest s
      else
        match ev a with
        | .error _ => checkAlertsGo ev rest s
        | .ok true => checkAlertsGo ev rest (triggerAlert s a)
        | .ok false => checkAlertsGo ev rest s

/-- checkAlerts: iterate the alerts map of the starting state. -/
def checkAlerts (ev : Alert → Except Unit Bool) (s : AlertState) : AlertState :=
  checkAlertsGo ev s.alerts s

/-- The combined condition under which one checkAlerts step triggers an
alert: active, not yet triggered, and an ok-true oracle outcome. -/
def fires (ev : Alert → Except Unit Bool) (a : Alert) : Bool :=
  if a.status = "active" ∧ a.triggered = false then
    match ev a with
    | .ok true => true
    | _ => false
  else false

/-- The effect of one checkAlerts pass on a single alert: triggered when its
condition fires, untouched otherwise. -/
def checkOne (ev : Alert → Except Unit Bool) (a : Alert) : Alert :=
  if fires ev a then { a with triggered := true } else a

/-- getActiveAlerts over the iteration list: collect the alerts whose address
matches case-insensitively; reading address of an alert with no address
field throws (undefined has no toLowerCase), modelled as an error result. -/
def getActiveAlertsGo (address : String) : List Alert → Except Unit (List Alert)
  | [] => .ok []
  | a :: rest =>
      match a.spec.address with
      | none => .error ()
      | some ad =>
          match getActiveAlertsGo address rest with
          | .error e => .error e
          | .ok tail =>
              .ok (if jsToLower ad = jsToLower address then a :: tail else tail)

/-- getActiveAlerts: iterate the values of the activeAlerts index. -/
def getActiveAlerts (s : AlertState) (address : String) :
    Except Unit (List Alert) :=
  getActiveAlertsGo address (s.activeAlerts.map Prod.snd)

/-- Decidable equality of evaluation results. -/
def exceptDecEq {ε α : Type} [DecidableEq ε] [DecidableEq α] :
    DecidableEq (Except ε α)
  | Except.error e, Except.error f =>
      if h : e = f then isTrue (h ▸ rfl)
      else isFalse (fun hh => h (Except.error.inj hh))
  | Except.error _, Except.ok _ => isFalse (fun hh => Except.noConfusion hh)
  | Except.ok _, Except.error _ => isFalse (fun hh => Except.noConfusion hh)
  | Except.ok a, Except.ok b =>
      if h : a = b then isTrue (h ▸ rfl)
      else isFalse (fun hh => h (Except.ok.inj hh))

instance {ε α : Type} [DecidableEq ε] [DecidableEq α] :
    DecidableEq (Except ε α) := exceptDecEq

/-- Well-formedness of the registry: the alerts map has no duplicate keys,
every alert is keyed by its own id, and every present id has been issued by
the generator. -/
def WF (s : AlertState) : Prop :=
  (s.alerts.map Prod.fst).Nodup
  ∧ (∀ p ∈ s.alerts, (p.2).id = p.1)
  ∧ (∀ p ∈ s.alerts, p.1 ∈ s.used)

instance (s : AlertState) : Decidable (WF s) := by
  unfold WF; infer_instance

/-- The operations the registry and its background evaluator perform on the
state: creation under a fresh generated id, deletion, and one evaluator pass
under an arbitrary oracle. -/
inductive AlertOp : AlertState → AlertState → Prop where
  | create (s : AlertState) (id : String) (spec : AlertSpec) :
      id ∉ s.used → AlertOp s (createAlert s id spec).1
  | del (s : AlertState) (id : String) : AlertOp s (deleteAlert s id).1
  | check (s : AlertState) (ev : Alert → Except Unit Bool) :
      AlertOp s (checkAlerts ev s)

/-! ## Concrete instances used by the claim witnesses and counterexamples -/

/-- The rational value of the volatility accumulation loop when the total is
nonzero. -/
def volQ (T : ℚ) (tokens : List Token) : ℚ :=
  tokens.foldl (fun s t => s + t.valueUSD / T * 100 * volWeight t) 0

/-- A one-token portfolio with positive value, on which the rounded total
differs from the exact sub-score sum. -/
def toksRound : List Token := [{ symbol := "ETH", valueUSD := 100 }]

/-- A two-token portfolio with positive total value. -/
def toksW : List Token :=
  [{ symbol := "USDC", valueUSD := 60 }, { symbol := "ETH", valueUSD := 40 }]

/-- A transaction whose destination is a genuine hexadecimal address. -/
def txHex : Transaction :=
  { value := 0, gasUsed := 0, tokenTransfers := none, toAddr := some "0xabc123" }

/-- A fully populated alert spec. -/
def aSpec : AlertSpec :=
  { address := some "0xAAA", typ := some "PRICE", condition := some "ABOVE",
    value := some 1 }

/-- An already triggered alert. -/
def trigAlert : Alert :=
  { id := "a1", spec := aSpec, status := "active", triggered := true }

/-- A registry holding one triggered alert. -/
def trigState : AlertState :=
  { alerts := [("a1", trigAlert)], activeAlerts := [("a1", trigAlert)],
    used := ["a1"] }

/-- An oracle that always answers false. -/
def evFalse : Alert → Except Unit Bool := fun _ => .ok false

/-- An oracle that always answers true. -/
def evTrue : Alert → Except Unit Bool := fun _ => .ok true

/-- An untriggered active alert. -/
def alertA1 : Alert :=
  { id := "a1", spec := aSpec, status := "active", triggered := false }

/-- A second untriggered active alert. -/
def alertA2 : Alert :=
  { id := "a2", spec := aSpec, status := "active", triggered := false }

/-- A registry holding the two untriggered alerts. -/
def stateTwo : AlertState :=
  { alerts := [("a1", alertA1), ("a2", alertA2)], activeAlerts := [],
    used := ["a1", "a2"] }

/-- An oracle that throws on the first alert and answers true on any other. -/
def evErrFirst : Alert → Except Unit Bool :=
  fun a => if a.id = "a1" then .error () else .ok true

/-- The registry after creating an alert, triggering it through one evaluator
pass, and deleting it. -/
def sDelTrig : AlertState :=
  (deleteAlert (checkAlerts evTrue (createAlert emptyAlerts "a1" aSpec).1) "a1").1

/-- An alert spec with every required field missing. -/
def emptySpec : AlertSpec :=
  { address := none, typ := none, condition := none, value := none }

/-! ## Association list lemmas -/

section AListLemmas

variable {α : Type}

theorem aget_aset_self (l : List (String × α)) (k : String) (v : α) :
    aget (aset l k v) k = some v := by
  induction l with
  | nil => simp [aset, aget]
  | cons p rest ih =>
    obtain ⟨k', v'⟩ := p
    by_cases h : k' = k
    · simp [aset, h, aget]
    · simp [aset, h, aget, ih]

theorem aget_aset_ne {k j : String} (h : k ≠ j) (l : List (String × α)) (v : α) :
    aget (aset l k v) j = aget l j := by
  induction l with
  | nil => simp [aset, aget, h]
  | cons p rest ih =>
    obtain ⟨k', v'⟩ := p
    by_cases hk : k' = k
    · subst hk
      simp [aset, aget, h]
    · by_cases hj : k' = j
      · simp [aset, aget, hk, hj, Ne.symm h]
      · simp [aset, aget, hk, hj, ih]

theorem mem_aset {l : List (String × α)} {k : String} {v : α} {p : String × α}
    (h : p ∈ aset l k v) : p ∈ l ∨ p = (k, v) := by
  induction l with
  | nil => simp [aset] at h; simp [h]
  | cons q rest ih =>
    obtain ⟨k', v'⟩ := q
    by_cases hk : k' = k
    · simp [aset, hk] at h
      rcases h with h | h
      · right; simp [h]
      · left; exact List.mem_cons_of_mem _ h
    · simp [aset, hk] at h
      rcases h with h | h
      · left; simp [h]
      · rcases ih h with h' | h'
        · left; exact List.mem_cons_of_mem _ h'
        · right; exact h'

theorem keys_aset_mem {l : List (String × α)} {k : String} {j : String} {v : α}
    (h : j ∈ (aset l k v).map Prod.fst) : j ∈ l.map Prod.fst ∨ j = k := by
  simp only [List.mem_map] at h
  obtain ⟨p, hp, hj⟩ := h
  rcases mem_aset hp with h' | h'
  · left; exact List.mem_map.mpr ⟨p, h', hj⟩
  · right; rw [← hj, h']

theorem keys_aset_of_mem {l : List (String × α)} {k : String}
    (h : k ∈ l.map Prod.fst) (v : α) :
    (aset l k v).map Prod.fst = l.map Prod.fst := by
  induction l with
  | nil => simp at h
  | cons p rest ih =>
    obtain ⟨k', v'⟩ := p
    by_cases hk : k' = k
    · simp [aset, hk]
    · have : k ∈ rest.map Prod.fst := by
        simp at h
        rcases h with h | h
        · exact absurd h.symm hk
        · simpa using h
      simp [aset, hk, ih this]

theorem nodup_keys_aset {l : List (String × α)} (h : (l.map Prod.fst).Nodup)
    (k : String) (v : α) : ((aset l k v).map Prod.fst).Nodup := by
  induction l with
  | nil => simp [aset]
  | cons p rest ih =>
    obtain ⟨k', v'⟩ := p
    simp only [List.map_cons, List.nodup_cons] at h
    by_cases hk : k' = k
    · subst hk
      simpa [aset] using h
    · have hstep : aset ((k', v') :: rest) k v = (k', v') :: aset rest k v := by
        simp [aset, hk]
      rw [hstep, List.map_cons, List.nodup_cons]
      refine ⟨fun hmem => ?_, ih h.2⟩
      rcases keys_aset_mem hmem with h' | h'
      · exact h.1 h'
      · exact hk h'

theorem aget_eq_none_iff {l : List (String × α)} {k : String} :
    aget l k = none ↔ k ∉ l.map Prod.fst := by
  induction l with
  | nil => simp [aget]
  | cons p rest ih =>
    obtain ⟨k', v'⟩ := p
    by_cases hk : k' = k
    · simp [aget, hk]
    · simp [aget, hk, ih, Ne.symm hk]

theorem aget_some_mem {l : List (String × α)} {k : String} {v : α}
    (h : aget l k = some v) : (k, v) ∈ l := by
  induction l with
  | nil => simp [aget] at h
  | cons p rest ih =>
    obtain ⟨k', v'⟩ := p
    by_cases hk : k' = k
    · subst hk
      simp [aget] at h
      simp [h]
    · simp [aget, hk] at h
      exact List.mem_cons_of_mem _ (ih h)

theorem adel_snd (l : List (String × α)) (k : String) :
    (adel l k).2 = (aget l k).isSome := by
  induction l with
  | nil => simp [adel, aget]
  | cons p rest ih =>
    obtain ⟨k', v'⟩ := p
    by_cases hk : k' = k
    · simp [adel, aget, hk]
    · simp [adel, aget, hk, ih]

theorem mem_adel {l : List (String × α)} {k : String} {p : String × α}
    (h : p ∈ (adel l k).1) : p ∈ l := by
  induction l with
  | nil => simp [adel] at h
  | cons q rest ih =>
    obtain ⟨k', v'⟩ := q
    by_cases hk : k' = k
    · simp [adel, hk] at h
      exact List.mem_cons_of_mem _ h
    · simp [adel, hk] at h
      rcases h with h | h
      · simp [h]
      · exact List.mem_cons_of_mem _ (ih h)

theorem keys_adel_sub {l : List (String × α)} {k j : String}
    (h : j ∈ ((adel l k).1.map Prod.fst)) : j ∈ l.map Prod.fst := by
  simp only [List.mem_map] at h ⊢
  obtain ⟨p, hp, hj⟩ := h
  exact ⟨p, mem_adel hp, hj⟩

theorem nodup_keys_adel {l : List (String × α)} (h : (l.map Prod.fst).Nodup)
    (k : String) : ((adel l k).1.map Prod.fst).Nodup := by
  induction l with
  | nil => simp [adel]
  | cons p rest ih =>
    obtain ⟨k', v'⟩ := p
    simp only [List.map_cons, List.nodup_cons] at h
    by_cases hk : k' = k
    · simpa [adel, hk] using h.2
    · have hstep : (adel ((k', v') :: rest) k).1 = (k', v') :: (adel rest k).1 := by
        simp [adel, hk]
      rw [hstep, List.map_cons, List.nodup_cons]
      exact ⟨fun hmem => h.1 (keys_adel_sub hmem), ih h.2⟩

theorem aget_adel_self {l : List (String × α)} (h : (l.map Prod.fst).Nodup)
    (k : String) : aget (adel l k).1 k = none := by
  induction l with
  | nil => simp [adel, aget]
  | cons p rest ih =>
    obtain ⟨k', v'⟩ := p
    simp only [List.map_cons, List.nodup_cons] at h
    by_cases hk : k' = k
    · subst hk
      simpa [adel, aget_eq_none_iff] using h.1
    · simp [adel, aget, hk, ih h.2]

theorem aget_adel_ne {k j : String} (h : j ≠ k) (l : List (String × α)) :
    aget (adel l k).1 j = aget l j := by
  induction l with
  | nil => simp [adel]
  | cons p rest ih =>
    obtain ⟨k', v'⟩ := p
    by_cases hk : k' = k
    · subst hk
      simp [adel, aget, Ne.symm h]
    · by_cases hj : k' = j
      · simp [adel, aget, hk, hj, h]
      · simp [adel, aget, hk, hj, ih]

end AListLemmas

/-! ## Evaluator pass lemmas -/

theorem checkAlertsGo_used (ev : Alert → Except Unit Bool) :
    ∀ (l : List (String × Alert)) (s : AlertState),
      (checkAlertsGo ev l s).used = s.used := by
  intro l
  induction l with
  | nil => intro s; rfl
  | cons p rest ih =>
    intro s
    obtain ⟨k, a⟩ := p
    simp only [checkAlertsGo]
    split
    · exact ih s
    · split
      · exact ih s
      · rw [ih (triggerAlert s a)]
        rfl
      · exact ih s

theorem checkAlertsGo_aget (ev : Alert → Except Unit Bool) :
    ∀ (l : List (String × Alert)) (s : AlertState) (id : String),
      (l.map Prod.fst).Nodup → (∀ p ∈ l, (p.2).id = p.1) →
      aget (checkAlertsGo ev l s).alerts id =
        (match aget l id with
         | some b =>
             if fires ev b then some { b with triggered := true }
             else aget s.alerts id
         | none => aget s.alerts id) := by
  intro l
  induction l with
  | nil => intro s id _ _; simp [checkAlertsGo, aget]
  | cons p rest ih =>
    intro s id hnd hids
    obtain ⟨k, a⟩ := p
    have haid : a.id = k := hids (k, a) (List.mem_cons_self _ _)
    have hnd' : (rest.map Prod.fst).Nodup := by
      simp only [List.map_cons, List.nodup_cons] at hnd
      exact hnd.2
    have hknot : k ∉ rest.map Prod.fst := by
      simp only [List.map_cons, List.nodup_cons] at hnd
      exact hnd.1
    have hids' : ∀ p ∈ rest, (p.2).id = p.1 :=
      fun p hp => hids p (List.mem_cons_of_mem _ hp)
    by_cases hk : k = id
    · subst hk
      have hrest_none : aget rest k = none := aget_eq_none_iff.mpr hknot
      simp only [checkAlertsGo]
      split
      · rename_i hskip
        have hfa : fires ev a = false := by
          have hcond : ¬(a.status = "active" ∧ a.triggered = false) := by
            rintro ⟨h1, h2⟩
            rcases hskip with hs | hs
            · exact hs h1
            · rw [h2] at hs
              exact Bool.false_ne_true hs
          simp [fires, hcond]
        rw [ih s k hnd' hids', hrest_none]
        simp [aget, hfa]
      · rename_i hskip
        simp only [not_or, not_not, Bool.not_eq_true] at hskip
        obtain ⟨hact, htrig⟩ := hskip
        split
        · rename_i e heq
          have hfa : fires ev a = false := by simp [fires, hact, htrig, heq]
          rw [ih s k hnd' hids', hrest_none]
          simp [aget, hfa]
        · rename_i heq
          have hfa : fires ev a = true := by simp [fires, hact, htrig, heq]
          rw [ih (triggerAlert s a) k hnd' hids', hrest_none]
          simp [triggerAlert, aget, hfa, haid, aget_aset_self]
        · rename_i heq
          have hfa : fires ev a = false := by simp [fires, hact, htrig, heq]
          rw [ih s k hnd' hids', hrest_none]
          simp [aget, hfa]
    · have hcons : aget ((k, a) :: rest) id = aget rest id := by simp [aget, hk]
      simp only [checkAlertsGo]
      split
      · rw [ih s id hnd' hids', hcons]
      · split
        · rw [ih s id hnd' hids', hcons]
        · rw [ih (triggerAlert s a) id hnd' hids', hcons]
          have htrg : aget (triggerAlert s a).alerts id = aget s.alerts id := by
            simp only [triggerAlert]
            exact aget_aset_ne (by rw [haid]; exact hk) _ _
          rw [htrg]
        · rw [ih s id hnd' hids', hcons]

theorem checkAlerts_aget_some {s : AlertState} {id : String} {a : Alert}
    (hwf : WF s) (h : aget s.alerts id = some a) (ev : Alert → Except Unit Bool) :
    aget (checkAlerts ev s).alerts id = some (checkOne ev a) := by
  unfold checkAlerts
  rw [checkAlertsGo_aget ev s.alerts s id hwf.1 hwf.2.1, h]
  by_cases hf : fires ev a
  · simp [checkOne, hf]
  · simp [checkOne, hf, h]

theorem checkAlerts_aget_none {s : AlertState} {id : String}
    (hwf : WF s) (h : aget s.alerts id = none) (ev : Alert → Except Unit Bool) :
    aget (checkAlerts ev s).alerts id = none := by
  unfold checkAlerts
  rw [checkAlertsGo_aget ev s.alerts s id hwf.1 hwf.2.1, h]

theorem keys_checkAlertsGo (ev : Alert → Except Unit Bool) :
    ∀ (l : List (String × Alert)) (s : AlertState),
      (∀ p ∈ l, (p.2).id ∈ s.alerts.map Prod.fst) →
      (checkAlertsGo ev l s).alerts.map Prod.fst = s.alerts.map Prod.fst := by
  intro l
  induction l with
  | nil => intro s _; rfl
  | cons p rest ih =>
    intro s hmem
    obtain ⟨k, a⟩ := p
    have hmem_rest : ∀ p ∈ rest, (p.2).id ∈ s.alerts.map Prod.fst :=
      fun p hp => hmem p (List.mem_cons_of_mem _ hp)
    simp only [checkAlertsGo]
    split
    · exact ih s hmem_rest
    · split
      · exact ih s hmem_rest
      · have hkeys : (triggerAlert s a).alerts.map Prod.fst = s.alerts.map Prod.fst := by
          simp only [triggerAlert]
          exact keys_aset_of_mem (hmem (k, a) (List.mem_cons_self _ _)) _
        have h2 : ∀ p ∈ rest, (p.2).id ∈ (triggerAlert s a).alerts.map Prod.fst := by
          intro p hp
          rw [hkeys]
          exact hmem_rest p hp
        rw [ih (triggerAlert s a) h2, hkeys]
      · exact ih s hmem_rest

theorem ids_checkAlertsGo (ev : Alert → Except Unit Bool) :
    ∀ (l : List (String × Alert)) (s : AlertState),
      (∀ p ∈ s.alerts, (p.2).id = p.1) →
      ∀ p ∈ (checkAlertsGo ev l s).alerts, (p.2).id = p.1 := by
  intro l
  induction l with
  | nil => intro s h; exact h
  | cons q rest ih =>
    intro s h
    obtain ⟨k, a⟩ := q
    simp only [checkAlertsGo]
    split
    · exact ih s h
    · split
      · exact ih s h
      · refine ih (triggerAlert s a) ?_
        intro p hp
        simp only [triggerAlert] at hp
        rcases mem_aset hp with h' | h'
        · exact h p h'
        · rw [h']
      · exact ih s h

theorem nodup_checkAlertsGo (ev : Alert → Except Unit Bool) :
    ∀ (l : List (String × Alert)) (s : AlertState),
      (s.alerts.map Prod.fst).Nodup →
      ((checkAlertsGo ev l s).alerts.map Prod.fst).Nodup := by
  intro l
  induction l with
  | nil => intro s h; exact h
  | cons q rest ih =>
    intro s h
    obtain ⟨k, a⟩ := q
    simp only [checkAlertsGo]
    split
    · exact ih s h
    · split
      · exact ih s h
      · refine ih (triggerAlert s a) ?_
        simp only [triggerAlert]
        exact nodup_keys_aset h _ _
      · exact ih s h

theorem WF_checkAlerts (ev : Alert → Except Unit Bool) {s : AlertState}
    (hwf : WF s) : WF (checkAlerts ev s) := by
  obtain ⟨hnd, hids, hused⟩ := hwf
  have hmem : ∀ p ∈ s.alerts, (p.2).id ∈ s.alerts.map Prod.fst := by
    intro p hp
    rw [hids p hp]
    exact List.mem_map.mpr ⟨p, hp, rfl⟩
  have hkeys : (checkAlerts ev s).alerts.map Prod.fst = s.alerts.map Prod.fst :=
    keys_checkAlertsGo ev s.alerts s hmem
  refine ⟨nodup_checkAlertsGo ev s.alerts s hnd, ids_checkAlertsGo ev s.alerts s hids, ?_⟩
  intro p hp
  have hp1 : p.1 ∈ s.alerts.map Prod.fst := by
    rw [← hkeys]
    exact List.mem_map.mpr ⟨p, hp, rfl⟩
  obtain ⟨q, hq, hq1⟩ := List.mem_map.mp hp1
  rw [show (checkAlerts ev s).used = s.used from checkAlertsGo_used ev s.alerts s, ← hq1]
  exact hused q hq

theorem WF_createAlert {s : AlertState} (hwf : WF s) (id : String)
    (spec : AlertSpec) : WF (createAlert s id spec).1 := by
  obtain ⟨hnd, hids, hused⟩ := hwf
  refine ⟨?_, ?_, ?_⟩
  · simpa [createAlert] using nodup_keys_aset hnd id _
  · intro p hp
    simp only [createAlert] at hp
    rcases mem_aset hp with h | h
    · exact hids p h
    · rw [h]
  · intro p hp
    simp only [createAlert] at hp ⊢
    rcases mem_aset hp with h | h
    · exact List.mem_cons_of_mem _ (hused p h)
    · rw [h]
      exact List.mem_cons_self _ _

theorem WF_deleteAlert {s : AlertState} (hwf : WF s) (id : String) :
    WF (deleteAlert s id).1 := by
  obtain ⟨hnd, hids, hused⟩ := hwf
  exact ⟨nodup_keys_adel hnd id,
    fun p hp => hids p (mem_adel hp),
    fun p hp => hused p (mem_adel hp)⟩

theorem WF_step {s s' : AlertState} (h : AlertOp s s') (hwf : WF s) : WF s' := by
  cases h with
  | create id spec hfresh => exact WF_createAlert hwf id spec
  | del id => exact WF_deleteAlert hwf id
  | check ev => exact WF_checkAlerts ev hwf

/-- The invariant carried along every trace for one alert id: either the id
is bound to a triggered alert, or it is gone but its id remains consumed, so
no later create step can rebind it. -/
def TriggeredInv (id : String) (s : AlertState) : Prop :=
  (∃ a, aget s.alerts id = some a ∧ a.triggered = true)
  ∨ (aget s.alerts id = none ∧ id ∈ s.used)

theorem step_TriggeredInv {s s' : AlertState} {id : String} (h : AlertOp s s')
    (hwf : WF s) (hq : TriggeredInv id s) : TriggeredInv id s' := by
  cases h with
  | create id' spec hfresh =>
    rcases hq with ⟨a, ha, htr⟩ | ⟨hnone, hused⟩
    · have hidused : id ∈ s.used := hwf.2.2 (id, a) (aget_some_mem ha)
      have hne : id' ≠ id := fun he => hfresh (he ▸ hidused)
      refine Or.inl ⟨a, ?_, htr⟩
      simp only [createAlert]
      rw [aget_aset_ne hne]
      exact ha
    · have hne : id' ≠ id := fun he => hfresh (he ▸ hused)
      refine Or.inr ⟨?_, ?_⟩
      · simp only [createAlert]
        rw [aget_aset_ne hne]
        exact hnone
      · simp only [createAlert]
        exact List.mem_cons_of_mem _ hused
  | del j =>
    rcases hq with ⟨a, ha, htr⟩ | ⟨hnone, hused⟩
    · by_cases hj : id = j
      · subst hj
        refine Or.inr ⟨?_, hwf.2.2 (id, a) (aget_some_mem ha)⟩
        simp only [deleteAlert]
        exact aget_adel_self hwf.1 id
      · refine Or.inl ⟨a, ?_, htr⟩
        simp only [deleteAlert]
        rw [aget_adel_ne hj]
        exact ha
    · refine Or.inr ⟨?_, hused⟩
      simp only [deleteAlert]
      rw [aget_eq_none_iff] at hnone ⊢
      exact fun hmem => hnone (keys_adel_sub hmem)
  | check ev =>
    rcases hq with ⟨a, ha, htr⟩ | ⟨hnone, hused⟩
    · refine Or.inl ⟨checkOne ev a, checkAlerts_aget_some hwf ha ev, ?_⟩
      have hfa : fires ev a = false := by simp [fires, htr]
      simp [checkOne, hfa, htr]
    · refine Or.inr ⟨checkAlerts_aget_none hwf hnone ev, ?_⟩
      rw [show (checkAlerts ev s).used = s.used from checkAlertsGo_used ev s.alerts s]
      exact hused

theorem reach_TriggeredInv {s s' : AlertState} {id : String}
    (h : Relation.ReflTransGen AlertOp s s') (hwf : WF s)
    (hq : TriggeredInv id s) : WF s' ∧ TriggeredInv id s' := by
  induction h with
  | refl => exact ⟨hwf, hq⟩
  | tail _hab hstep ih =>
    exact ⟨WF_step hstep ih.1, step_TriggeredInv hstep ih.1 ih.2⟩

/-! ## Risk engine lemmas -/

open JsNum

theorem foldl_q_shift (f : Token → ℚ) :
    ∀ (l : List Token) (acc : ℚ),
      l.foldl (fun s t => s + f t) acc = acc + l.foldl (fun s t => s + f t) 0 := by
  intro l
  induction l with
  | nil => intro acc; simp
  | cons t ts ih =>
    intro acc
    simp only [List.foldl_cons]
    rw [ih (acc + f t), ih (0 + f t)]
    ring

theorem totalValueQ_cons (t : Token) (ts : List Token) :
    totalValueQ (t :: ts) = t.valueUSD + totalValueQ ts := by
  unfold totalValueQ
  simp only [List.foldl_cons]
  rw [foldl_q_shift (fun t => t.valueUSD) ts (0 + t.valueUSD)]
  ring

theorem volQ_cons (T : ℚ) (t : Token) (ts : List Token) :
    volQ T (t :: ts) = t.valueUSD / T * 100 * volWeight t + volQ T ts := by
  unfold volQ
  simp only [List.foldl_cons]
  rw [foldl_q_shift (fun t => t.valueUSD / T * 100 * volWeight t) ts]
  ring

theorem volWeight_pos (t : Token) : 0 < volWeight t := by
  unfold volWeight
  split_ifs <;> norm_num

theorem volWeight_le_half (t : Token) : volWeight t ≤ 1/2 := by
  unfold volWeight
  split_ifs <;> norm_num

theorem volatilityScoreJ_eq_fin {T : ℚ} (hT : T ≠ 0) (tokens : List Token) :
    volatilityScoreJ tokens T = JsNum.fin (volQ T tokens) := by
  unfold volatilityScoreJ volQ
  suffices h : ∀ (l : List Token) (acc : ℚ),
      l.foldl
        (fun acc t =>
          jsAdd acc (jsMul (jsMul (jsDiv (fin t.valueUSD) (fin T)) (fin 100))
            (fin (volWeight t))))
        (JsNum.fin acc)
      = JsNum.fin (l.foldl (fun s t => s + t.valueUSD / T * 100 * volWeight t) acc) by
    exact h tokens 0
  intro l
  induction l with
  | nil => intro acc; rfl
  | cons t ts ih =>
    intro acc
    simp only [List.foldl_cons]
    rw [jsDiv_fin_fin hT, jsMul_fin_fin, jsMul_fin_fin, jsAdd_fin_fin, ih]

theorem volQ_nonneg {T : ℚ} (hT : 0 < T) :
    ∀ l : List Token, (∀ t ∈ l, 0 ≤ t.valueUSD) → 0 ≤ volQ T l := by
  intro l
  induction l with
  | nil => intro _; simp [volQ]
  | cons t ts ih =>
    intro hpos
    rw [volQ_cons]
    have hv : 0 ≤ t.valueUSD := hpos t (List.mem_cons_self _ _)
    have hterm : 0 ≤ t.valueUSD / T * 100 * volWeight t := by
      have h1 : 0 ≤ t.valueUSD / T := div_nonneg hv hT.le
      have h2 : 0 ≤ t.valueUSD / T * 100 := by linarith
      exact mul_nonneg h2 (volWeight_pos t).le
    have hts : 0 ≤ volQ T ts := ih (fun u hu => hpos u (List.mem_cons_of_mem _ hu))
    linarith

theorem volQ_le {T : ℚ} (hT : 0 < T) :
    ∀ l : List Token, (∀ t ∈ l, 0 ≤ t.valueUSD) →
      volQ T l ≤ totalValueQ l / T * 50 := by
  intro l
  induction l with
  | nil => intro _; simp [volQ, totalValueQ]
  | cons t ts ih =>
    intro hpos
    rw [volQ_cons, totalValueQ_cons]
    have hv : 0 ≤ t.valueUSD := hpos t (List.mem_cons_self _ _)
    have h1 : 0 ≤ t.valueUSD / T * 100 := by
      have := div_nonneg hv hT.le
      linarith
    have hterm : t.valueUSD / T * 100 * volWeight t ≤ t.valueUSD / T * 50 := by
      have h2 := mul_le_mul_of_nonneg_left (volWeight_le_half t) h1
      calc t.valueUSD / T * 100 * volWeight t
          = t.valueUSD / T * 100 * volWeight t := rfl
        _ ≤ t.valueUSD / T * 100 * (1/2) := by
            exact mul_le_mul_of_nonneg_left (volWeight_le_half t) h1
        _ = t.valueUSD / T * 50 := by ring
    have hts := ih (fun u hu => hpos u (List.mem_cons_of_mem _ hu))
    have hsplit : (t.valueUSD + totalValueQ ts) / T * 50
        = t.valueUSD / T * 50 + totalValueQ ts / T * 50 := by
      field_simp
      ring
    rw [hsplit]
    linarith

theorem calculateVolatilityRisk_eq_fin {tokens : List Token}
    (hT : totalValueQ tokens ≠ 0) :
    calculateVolatilityRisk tokens
      = JsNum.fin (volQ (totalValueQ tokens) tokens / 100 * 30) := by
  unfold calculateVolatilityRisk
  dsimp only
  rw [volatilityScoreJ_eq_fin hT, jsDiv_fin_fin (by norm_num : (100:ℚ) ≠ 0),
    jsMul_fin_fin]

theorem calculateDiversificationRisk_bounds (tokens : List Token) :
    0 ≤ calculateDiversificationRisk tokens
      ∧ calculateDiversificationRisk tokens ≤ 25 := by
  unfold calculateDiversificationRisk
  dsimp only
  split_ifs <;> norm_num

theorem calculateConcentrationRisk_bounds (tokens : List Token) :
    0 ≤ calculateConcentrationRisk tokens
      ∧ calculateConcentrationRisk tokens ≤ 25 := by
  unfold calculateConcentrationRisk
  dsimp only
  split_ifs <;> norm_num

theorem calculateLiquidityRisk_bounds (tokens : List Token) :
    0 ≤ calculateLiquidityRisk tokens ∧ calculateLiquidityRisk tokens ≤ 20 := by
  unfold calculateLiquidityRisk
  dsimp only
  split_ifs <;> norm_num

theorem assessTransactionRisk_le_70 (tx : Transaction) :
    (assessTransactionRisk tx).score ≤ 70 := by
  obtain ⟨v, g, tt, ta⟩ := tx
  unfold assessTransactionRisk
  rcases tt with _ | transfers <;> rcases ta with _ | addr <;>
    dsimp only <;> split_ifs <;> norm_num

theorem getRiskLevel_ne_LOW {q : ℚ} (h : 25 ≤ q) :
    getRiskLevel (JsNum.fin q) ≠ "LOW" := by
  unfold getRiskLevel
  simp only [jsGeC_fin]
  split_ifs with h1 h2 h3
  · decide
  · decide
  · decide
  · simp only [decide_eq_true_eq] at h3
    exact absurd h h3

theorem char_ofNat_toNat {n : Nat} (h : n < 55296) : (Char.ofNat n).toNat = n := by
  have hv : n.isValidChar := Or.inl h
  simp [Char.ofNat, hv, Char.ofNatAux, Char.toNat, UInt32.toNat]

theorem jsCharToLower_hex_ne_dot {c : Char} (h : isHexDigitChar c = true) :
    jsCharToLower c ≠ '.' := by
  unfold isHexDigitChar at h
  simp only [Bool.or_eq_true, Bool.and_eq_true, decide_eq_true_eq] at h
  intro heq
  have hdot : ('.' : Char).toNat = 46 := by decide
  unfold jsCharToLower at heq
  have hcn : c.toNat = 46 ∨ c.toNat + 32 = 46 := by
    by_cases hAZ : 65 ≤ c.toNat ∧ c.toNat ≤ 90
    · rw [if_pos hAZ] at heq
      right
      rw [← char_ofNat_toNat (show c.toNat + 32 < 55296 by omega), heq, hdot]
    · rw [if_neg hAZ] at heq
      left
      rw [← hdot, heq]
  rcases h with (⟨ha, hb⟩ | ⟨ha, hb⟩) | ⟨ha, hb⟩ <;> rcases hcn with hc | hc <;> omega

theorem isKnownContract_hex_false {addr : String} (h : isHexAddress addr = true) :
    isKnownContract addr = false := by
  unfold isHexAddress at h
  rcases haddr : addr.data with _ | ⟨c0, _ | ⟨c1, rest⟩⟩ <;> rw [haddr] at h
  · simp at h
  · simp at h
  · simp only [Bool.and_eq_true, decide_eq_true_eq] at h
    obtain ⟨⟨hc0, hc1⟩, hhex⟩ := h
    subst hc0
    subst hc1
    unfold isKnownContract knownContracts
    have hlow : (jsToLower addr).data = '0' :: 'x' :: rest.map jsCharToLower := by
      show addr.data.map jsCharToLower = _
      rw [haddr, List.map_cons, List.map_cons,
        show jsCharToLower '0' = '0' from by decide,
        show jsCharToLower 'x' = 'x' from by decide]
    have hpat : (jsToLower "0x...").data = ['0', 'x', '.', '.', '.'] := by decide
    simp only [List.any_cons, List.any_nil, Bool.or_false]
    rw [hlow, hpat, Bool.or_self]
    rcases rest with _ | ⟨c, rest'⟩
    · simp [strStartsWith]
    · simp only [List.all_cons, Bool.and_eq_true] at hhex
      have hc := jsCharToLower_hex_ne_dot hhex.1
      simp [strStartsWith, hc]

/-! ## Claims -/

/-- C1: the spec requires a zero-value portfolio to yield a defined score
with volatility and liquidity sub-scores 0, but on a non-empty all-zero
portfolio the percentage division 0/0 is NaN, which propagates to the
volatility sub-score and the total; on the empty portfolio the total is the
number 17 with liquidity sub-score 2, not 0. -/
theorem C1_zero_value_portfolio_nan :
    (calculatePortfolioRisk [{ symbol := "ETH", valueUSD := 0 }]).volatility
      = JsNum.nan
    ∧ (calculatePortfolioRisk [{ symbol := "ETH", valueUSD := 0 }]).score
      = JsNum.nan
    ∧ (calculatePortfolioRisk []).score = fin 17
    ∧ (calculatePortfolioRisk []).liquidity = 2 := by
  refine ⟨?_, ?_, ?_, ?_⟩ <;>
    norm_num [calculatePortfolioRisk, calculateDiversificationRisk,
      calculateVolatilityRisk, volatilityScoreJ, calculateConcentrationRisk,
      calculateLiquidityRisk, totalValueQ, illiquidValueQ, sortDesc, insertDesc,
      List.foldl, jsDiv, jsMul, jsAdd, jsRound, jroundQ, jsGtC, jsGeC,
      getRiskLevel]

/-- C4 counterexample: no transaction at all reaches a score above 100, so
the unbounded-point-system claim fails; the four addends sum to at most
15 + 20 + 10 + 25 = 70. -/
theorem C4_cex_score_never_exceeds_100 :
    ¬ ∃ tx : Transaction, 100 < (assessTransactionRisk tx).score := by
  rintro ⟨tx, h⟩
  have := assessTransactionRisk_le_70 tx
  linarith

/-- C4 amended: assessTransactionRisk computes exactly the additive point
system of the spec (value over 10000 adds 15, gasUsed over 500000 adds 20,
more than 5 token transfers adds 10, an unknown non-empty destination adds
25), and the accumulated score is bounded by 70 — it can never exceed 100. -/
theorem C4_additive_point_system_bounded (tx : Transaction) :
    (assessTransactionRisk tx).score
      = (if 10000 < tx.value then (15:ℚ) else 0)
        + (if 500000 < tx.gasUsed then (20:ℚ) else 0)
        + (if 5 < (tx.tokenTransfers.getD []).length then (10:ℚ) else 0)
        + (match tx.toAddr with
           | some addr =>
               if addr ≠ "" ∧ isKnownContract addr = false then (25:ℚ) else 0
           | none => 0)
    ∧ (assessTransactionRisk tx).score ≤ 70 := by
  refine ⟨?_, assessTransactionRisk_le_70 tx⟩
  obtain ⟨v, g, tt, ta⟩ := tx
  unfold assessTransactionRisk
  rcases tt with _ | transfers <;> rcases ta with _ | addr <;>
    simp only [Option.getD_some, Option.getD_none, List.length_nil] <;>
    dsimp only <;> split_ifs <;> (first | (exfalso; omega) | norm_num)

/-- C5 counterexample: on the one-token portfolio ETH 100 the returned total
is the rounded value 57 while the four sub-scores sum to 56.5, so the total
does not equal the sum of the sub-scores. -/
theorem C5_cex_rounded_total :
    (calculatePortfolioRisk toksRound).score
      ≠ jsAdd (jsAdd (jsAdd
          (fin (calculatePortfolioRisk toksRound).diversification)
          (calculatePortfolioRisk toksRound).volatility)
          (fin (calculatePortfolioRisk toksRound).concentration))
          (fin (calculatePortfolioRisk toksRound).liquidity) := by
  have hs : isStablecoin "ETH" = false := by decide
  have hb : isBluechip "ETH" = true := by decide
  have hll : isLowLiquidityToken "ETH" = false := by decide
  norm_num [toksRound, calculatePortfolioRisk, calculateDiversificationRisk,
    calculateVolatilityRisk, volatilityScoreJ, calculateConcentrationRisk,
    calculateLiquidityRisk, totalValueQ, illiquidValueQ, sortDesc, insertDesc,
    volWeight, hs, hb, hll, List.foldl, jsDiv, jsMul, jsAdd, jsRound, jroundQ,
    jsGtC, jsGeC, getRiskLevel]

/-- C5 amended: for every portfolio with non-negative holding values and
positive total value, the four sub-scores satisfy the bounds
0 to 25 / 0 to 30 / 0 to 25 / 0 to 20, and the returned total equals the
half-up rounding of the sum of the four sub-scores (Math.round is applied
to the accumulated sum). -/
theorem C5_subscore_bounds_rounded_total (tokens : List Token)
    (hpos : ∀ t ∈ tokens, 0 ≤ t.valueUSD) (hT : 0 < totalValueQ tokens) :
    0 ≤ (calculatePortfolioRisk tokens).diversification
    ∧ (calculatePortfolioRisk tokens).diversification ≤ 25
    ∧ 0 ≤ (calculatePortfolioRisk tokens).concentration
    ∧ (calculatePortfolioRisk tokens).concentration ≤ 25
    ∧ 0 ≤ (calculatePortfolioRisk tokens).liquidity
    ∧ (calculatePortfolioRisk tokens).liquidity ≤ 20
    ∧ ∃ vq, (calculatePortfolioRisk tokens).volatility = fin vq
        ∧ 0 ≤ vq ∧ vq ≤ 30
        ∧ (calculatePortfolioRisk tokens).score
            = fin (jroundQ ((calculatePortfolioRisk tokens).diversification
                + vq
                + (calculatePortfolioRisk tokens).concentration
                + (calculatePortfolioRisk tokens).liquidity)) := by
  have hd : (calculatePortfolioRisk tokens).diversification
      = calculateDiversificationRisk tokens := rfl
  have hc : (calculatePortfolioRisk tokens).concentration
      = calculateConcentrationRisk tokens := rfl
  have hl : (calculatePortfolioRisk tokens).liquidity
      = calculateLiquidityRisk tokens := rfl
  have hv : (calculatePortfolioRisk tokens).volatility
      = calculateVolatilityRisk tokens := rfl
  obtain ⟨hd1, hd2⟩ := calculateDiversificationRisk_bounds tokens
  obtain ⟨hc1, hc2⟩ := calculateConcentrationRisk_bounds tokens
  obtain ⟨hl1, hl2⟩ := calculateLiquidityRisk_bounds tokens
  have hvfin := calculateVolatilityRisk_eq_fin hT.ne'
  have hvol_nonneg : 0 ≤ volQ (totalValueQ tokens) tokens / 100 * 30 := by
    have h0 := volQ_nonneg hT tokens hpos
    have h1 : 0 ≤ volQ (totalValueQ tokens) tokens / 100 :=
      div_nonneg h0 (by norm_num)
    linarith
  have hvol_le : volQ (totalValueQ tokens) tokens / 100 * 30 ≤ 30 := by
    have h1 := volQ_le hT tokens hpos
    have h2 : totalValueQ tokens / totalValueQ tokens * 50 = 50 := by
      rw [div_self hT.ne']
      ring
    rw [h2] at h1
    linarith
  refine ⟨hd ▸ hd1, hd ▸ hd2, hc ▸ hc1, hc ▸ hc2, hl ▸ hl1, hl ▸ hl2,
    volQ (totalValueQ tokens) tokens / 100 * 30, hv ▸ hvfin,
    hvol_nonneg, hvol_le, ?_⟩
  have hscore : (calculatePortfolioRisk tokens).score
      = jsRound (jsAdd (jsAdd (jsAdd
          (jsAdd (fin 0) (fin (calculateDiversificationRisk tokens)))
          (calculateVolatilityRisk tokens))
          (fin (calculateConcentrationRisk tokens)))
          (fin (calculateLiquidityRisk tokens))) := rfl
  rw [hscore, hvfin, hd, hc, hl]
  simp only [jsAdd_fin_fin, jsRound_fin, zero_add]

/-- C2: along every reachable sequence of registry operations (create with a
fresh id, delete, evaluator pass), an alert that is triggered stays
triggered for as long as it is present: no operation resets the flag. -/
theorem C2_triggered_stays_triggered (s s' : AlertState)
    (hreach : Relation.ReflTransGen AlertOp s s') (hwf : WF s) (id : String)
    (a a' : Alert) (ha : aget s.alerts id = some a) (htr : a.triggered = true)
    (ha' : aget s'.alerts id = some a') : a'.triggered = true := by
  rcases (reach_TriggeredInv hreach hwf (Or.inl ⟨a, ha, htr⟩)).2 with
    ⟨b, hb, hbt⟩ | ⟨hnone, _⟩
  · rw [ha'] at hb
    rw [Option.some.inj hb]
    exact hbt
  · rw [ha'] at hnone
    exact Option.noConfusion hnone

/-- Witness for C2: a one-pass trace over a registry holding a triggered
alert leaves it triggered. -/
theorem C2_witness :
    aget (checkAlerts evFalse trigState).alerts "a1" = some trigAlert
    ∧ trigAlert.triggered = true := by
  have hget : aget (checkAlerts evFalse trigState).alerts "a1" = some trigAlert := by
    decide
  refine ⟨hget, ?_⟩
  exact C2_triggered_stays_triggered trigState (checkAlerts evFalse trigState)
    (Relation.ReflTransGen.single (AlertOp.check trigState evFalse))
    (by decide) "a1" trigAlert trigAlert (by decide) (by decide) hget

/-- C3: when the evaluation of one alert throws, the error is caught at the
evaluator boundary: the throwing alert is left unchanged and untriggered,
and every other alert of the pass is still processed to exactly the outcome
its own evaluation dictates. -/
theorem C3_error_isolation (ev : Alert → Except Unit Bool) (s : AlertState)
    (hwf : WF s) (id : String) (a : Alert) (ha : aget s.alerts id = some a)
    (hact : a.status = "active") (hnt : a.triggered = false)
    (herr : ev a = .error ()) :
    aget (checkAlerts ev s).alerts id = some a
    ∧ ∀ j b, j ≠ id → aget s.alerts j = some b →
        aget (checkAlerts ev s).alerts j = some (checkOne ev b) := by
  constructor
  · have h := checkAlerts_aget_some hwf ha ev
    have hfa : fires ev a = false := by simp [fires, hact, hnt, herr]
    rw [h]
    simp [checkOne, hfa]
  · intro j b _ hb
    exact checkAlerts_aget_some hwf hb ev

/-- Witness for C3: with an oracle that throws on the first of two alerts
and answers true on the second, one pass leaves the first untouched and
triggers the second. -/
theorem C3_witness :
    aget (checkAlerts evErrFirst stateTwo).alerts "a1" = some alertA1
    ∧ aget (checkAlerts evErrFirst stateTwo).alerts "a2"
        = some { alertA2 with triggered := true } := by
  obtain ⟨h1, h2⟩ := C3_error_isolation evErrFirst stateTwo (by decide) "a1"
    alertA1 (by decide) (by decide) (by decide) rfl
  refine ⟨h1, ?_⟩
  have h3 := h2 "a2" alertA2 (by decide) (by decide)
  rw [h3]
  decide

/-- C6 counterexample: after creating an alert, triggering it through one
evaluator pass, and deleting it, the alert is gone from the primary index
but getActiveAlerts still returns it from the triggered index — deleteAlert
does not remove it from all indices. -/
theorem C6_cex_still_in_triggered_index :
    aget sDelTrig.alerts "a1" = none
    ∧ getActiveAlerts sDelTrig "0xaaa" = Except.ok [trigAlert] := by
  decide

/-- C6 amended: deleteAlert removes the alert from the primary alerts index
only and returns true exactly when an alert with that id was removed; other
bindings are untouched and the triggered index (activeAlerts) is left
exactly as it was, so a previously triggered alert is still returned by
getActiveAlerts after deletion. -/
theorem C6_delete_primary_index_only (s : AlertState) (id : String)
    (hnd : (s.alerts.map Prod.fst).Nodup) :
    ((deleteAlert s id).2 = true ↔ aget s.alerts id ≠ none)
    ∧ aget (deleteAlert s id).1.alerts id = none
    ∧ (∀ j, j ≠ id → aget (deleteAlert s id).1.alerts j = aget s.alerts j)
    ∧ (deleteAlert s id).1.activeAlerts = s.activeAlerts := by
  refine ⟨?_, aget_adel_self hnd id, fun j hj => aget_adel_ne hj _, rfl⟩
  show (adel s.alerts id).2 = true ↔ _
  rw [adel_snd]
  cases haget : aget s.alerts id <;> simp

/-- Witness for C6 at a concrete two-alert registry. -/
theorem C6_witness :
    (deleteAlert stateTwo "a1").2 = true
    ∧ aget (deleteAlert stateTwo "a1").1.alerts "a1" = none := by
  have h := C6_delete_primary_index_only stateTwo "a1" (by decide)
  exact ⟨h.1.mpr (by decide), h.2.1⟩

/-- C9 counterexample: a spec with all four required fields missing is not
rejected — createAlert stores it unchanged. -/
theorem C9_cex_no_validation :
    aget (createAlert emptyAlerts "a1" emptySpec).1.alerts "a1"
      = some { id := "a1", spec := emptySpec, status := "active", triggered := false } := by
  decide

/-- C9 amended: createAlert performs no field validation: every spec,
well-formed or not, is stored and returned as an alert carrying the
generated id, status active and triggered false; required-field validation
exists only in the HTTP middleware layer outside the registry. -/
theorem C9_create_stores_any_spec (s : AlertState) (id : String)
    (spec : AlertSpec) :
    aget (createAlert s id spec).1.alerts id
      = some { id := id, spec := spec, status := "active", triggered := false }
    ∧ (createAlert s id spec).2
      = { id := id, spec := spec, status := "active", triggered := false } :=
  ⟨aget_aset_self _ _ _, rfl⟩

/-- C7 counterexample: set with ttl 1 then set with ttl 0 leaves the first
expiry in force, so at a later time get returns null although the second
set stored the value — the second set did not overwrite the prior TTL. -/
theorem C7_cex_stale_ttl_survives :
    aget (cset 0 (cset 0 emptyCache "k" (JVal.jnum 1) 1) "k" (JVal.jnum 2) 0).cache "k"
      = some (JVal.jnum 2)
    ∧ (cget 2000 (cset 0 (cset 0 emptyCache "k" (JVal.jnum 1) 1) "k" (JVal.jnum 2) 0) "k").1
      = JVal.jnull := by
  norm_num [cset, cget, isExpired, cdelete, emptyCache, aset, aget]

/-- C7 amended: set always overwrites the value, but records a TTL only when
ttl > 0; with ttl not positive the TTL map is untouched, so the entry is
immortal only when the key had no previously recorded expiry — in that case
it never expires and get returns the (truthy) value at every later time. -/
theorem C7_set_ttl_nonpositive (now : ℚ) (s : CacheState) (k : String)
    (v : JVal) (ttl : ℚ) (httl : ttl ≤ 0) (hnottl : aget s.ttls k = none) :
    aget (cset now s k v ttl).cache k = some v
    ∧ (cset now s k v ttl).ttls = s.ttls
    ∧ ∀ t : ℚ, isExpired t (cset now s k v ttl) k = false
        ∧ (chas t (cset now s k v ttl) k).1 = true
        ∧ (truthy v = true → (cget t (cset now s k v ttl) k).1 = v) := by
  have hset : cset now s k v ttl = { cache := aset s.cache k v, ttls := s.ttls } := by
    unfold cset
    rw [if_neg (not_lt.mpr httl)]
  have hcache : aget (cset now s k v ttl).cache k = some v := by
    rw [hset]
    exact aget_aset_self _ _ _
  have httlq : (cset now s k v ttl).ttls = s.ttls := by rw [hset]
  refine ⟨hcache, httlq, fun t => ?_⟩
  have hexp : isExpired t (cset now s k v ttl) k = false := by
    unfold isExpired
    rw [httlq, hnottl]
  refine ⟨hexp, ?_, fun htru => ?_⟩
  · unfold chas
    rw [hexp]
    simp [hcache]
  · unfold cget
    rw [hexp]
    simp [hcache, htru]

/-- Witness for C7: a ttl-0 set on a fresh key still reads back far in the
future. -/
theorem C7_witness :
    (cget 5000 (cset 0 emptyCache "k" (JVal.jstr "x") 0) "k").1
      = JVal.jstr "x" := by
  have h := C7_set_ttl_nonpositive 0 emptyCache "k" (JVal.jstr "x") 0
    (by norm_num) (by decide)
  exact (h.2.2 5000).2.2 (by decide)

/-- C8 counterexample: the stored number 0 is present and unexpired, yet get
returns null because the read goes through value-or-null — get does not
return the stored value exactly when present and live. -/
theorem C8_cex_falsy_value_reads_null :
    aget (cset 0 emptyCache "k" (JVal.jnum 0) 0).cache "k" = some (JVal.jnum 0)
    ∧ isExpired 5 (cset 0 emptyCache "k" (JVal.jnum 0) 0) "k" = false
    ∧ (cget 5 (cset 0 emptyCache "k" (JVal.jnum 0) 0) "k").1 = JVal.jnull
    ∧ JVal.jnull ≠ JVal.jnum 0 := by
  decide

/-- C8 amended: on an expired key both get and has evict the entry and
report absence; on a live key get returns the stored value when it is
truthy and null when the value is falsy or missing, and has reports key
presence, neither ever erroring. -/
theorem C8_get_has_liveness (now : ℚ) (s : CacheState) (k : String) :
    (isExpired now s k = true →
      cget now s k = (JVal.jnull, cdelete s k)
      ∧ chas now s k = (false, cdelete s k))
    ∧ (isExpired now s k = false →
      (∀ v, aget s.cache k = some v → truthy v = true → cget now s k = (v, s))
      ∧ (∀ v, aget s.cache k = some v → truthy v = false →
          cget now s k = (JVal.jnull, s))
      ∧ (aget s.cache k = none → cget now s k = (JVal.jnull, s))
      ∧ chas now s k = ((aget s.cache k).isSome, s)) := by
  constructor
  · intro hexp
    constructor <;> simp [cget, chas, hexp]
  · intro hexp
    refine ⟨?_, ?_, ?_, ?_⟩
    · intro v hv htr
      simp [cget, hexp, hv, htr]
    · intro v hv htr
      simp [cget, hexp, hv, htr]
    · intro hv
      simp [cget, hexp, hv]
    · simp [chas, hexp]

/-- Witness for C8: a live truthy value is returned unchanged with no state
change. -/
theorem C8_witness :
    cget 5 (cset 0 emptyCache "k" (JVal.jnum 7) 0) "k"
      = (JVal.jnum 7, cset 0 emptyCache "k" (JVal.jnum 7) 0) := by
  have h := C8_get_has_liveness 5 (cset 0 emptyCache "k" (JVal.jnum 7) 0) "k"
  exact (h.2 (by decide)).1 (JVal.jnum 7) (by decide) (by decide)

/-- C10: for every transaction whose destination is a genuine hexadecimal
address, the placeholder allowlist never matches, so the 25 unknown-contract
points are always added: the score is at least 25 and the level is at least
MEDIUM (never LOW). -/
theorem C10_hex_destination_unknown (tx : Transaction) (addr : String)
    (hto : tx.toAddr = some addr) (hhex : isHexAddress addr = true) :
    isKnownContract addr = false
    ∧ 25 ≤ (assessTransactionRisk tx).score
    ∧ (assessTransactionRisk tx).level ≠ "LOW" := by
  have hk := isKnownContract_hex_false hhex
  have hne : addr ≠ "" := by
    intro he
    subst he
    exact absurd hhex (by decide)
  have hs : 25 ≤ (assessTransactionRisk tx).score := by
    obtain ⟨v, g, tt, ta⟩ := tx
    dsimp only at hto
    subst hto
    unfold assessTransactionRisk
    dsimp only
    rw [if_pos ⟨hne, hk⟩]
    rcases tt with _ | transfers <;> dsimp only <;> split_ifs <;> norm_num
  refine ⟨hk, hs, ?_⟩
  have hlv : (assessTransactionRisk tx).level
      = getRiskLevel (JsNum.fin (assessTransactionRisk tx).score) := rfl
  rw [hlv]
  exact getRiskLevel_ne_LOW hs

/-- Witness for C10 at a concrete hexadecimal destination. -/
theorem C10_witness :
    isHexAddress "0xabc123" = true
    ∧ isKnownContract "0xabc123" = false
    ∧ 25 ≤ (assessTransactionRisk txHex).score
    ∧ (assessTransactionRisk txHex).level ≠ "LOW" := by
  have h := C10_hex_destination_unknown txHex "0xabc123" rfl (by decide)
  exact ⟨by decide, h.1, h.2.1, h.2.2⟩

/-- Witness for C5 at a concrete two-token portfolio of positive value. -/
theorem C5_witness :
    0 ≤ (calculatePortfolioRisk toksW).diversification
    ∧ (calculatePortfolioRisk toksW).diversification ≤ 25
    ∧ 0 ≤ (calculatePortfolioRisk toksW).concentration
    ∧ (calculatePortfolioRisk toksW).concentration ≤ 25
    ∧ 0 ≤ (calculatePortfolioRisk toksW).liquidity
    ∧ (calculatePortfolioRisk toksW).liquidity ≤ 20
    ∧ ∃ vq, (calculatePortfolioRisk toksW).volatility = fin vq
        ∧ 0 ≤ vq ∧ vq ≤ 30
        ∧ (calculatePortfolioRisk toksW).score
            = fin (jroundQ ((calculatePortfolioRisk toksW).diversification
                + vq
                + (calculatePortfolioRisk toksW).concentration
                + (calculatePortfolioRisk toksW).liquidity)) :=
  C5_subscore_bounds_rounded_total toksW (by decide) (by norm_num [toksW, totalValueQ])

end Aura
